import Mathlib

/-!
Verification development for the gitIssue-bridge VS Code extension.

The definitions below are a shallow embedding of the extension's four core
services (sanitizing Logger, Error Handler, Workspace Trust Manager, GitHub
Auth Manager), translated from the TypeScript sources.  Strings are lists of
characters, host-side asynchronous calls (session lookups, modal prompts)
are passed in as explicit response values, and exceptions are modelled with
`Except` / `Option`.
-/

abbrev Str := List Char

namespace Logger

/-- Character class `[a-zA-Z0-9]` used by the GitHub token regexes. -/
def isAlnumCh (c : Char) : Bool :=
  (decide (97 ≤ c.toNat) && decide (c.toNat ≤ 122)) ||
  (decide (65 ≤ c.toNat) && decide (c.toNat ≤ 90)) ||
  (decide (48 ≤ c.toNat) && decide (c.toNat ≤ 57))

/-- Character class `[a-f0-9]` with the `i` flag, used by the hex-run regex. -/
def isHexCh (c : Char) : Bool :=
  (decide (97 ≤ c.toNat) && decide (c.toNat ≤ 102)) ||
  (decide (65 ≤ c.toNat) && decide (c.toNat ≤ 70)) ||
  (decide (48 ≤ c.toNat) && decide (c.toNat ≤ 57))

/-- JavaScript regex word characters `[A-Za-z0-9_]`, used by `\b`. -/
def isWordCh (c : Char) : Bool :=
  isAlnumCh c || decide (c.toNat = 95)

/-- JavaScript regex whitespace class `\s`. -/
def isWsCh (c : Char) : Bool :=
  (decide (9 ≤ c.toNat) && decide (c.toNat ≤ 13)) ||
  decide (c.toNat = 32) || decide (c.toNat = 160) || decide (c.toNat = 5760) ||
  (decide (8192 ≤ c.toNat) && decide (c.toNat ≤ 8202)) ||
  decide (c.toNat = 8232) || decide (c.toNat = 8233) || decide (c.toNat = 8239) ||
  decide (c.toNat = 8287) || decide (c.toNat = 12288) || decide (c.toNat = 65279)

/-- Case-insensitive match of a subject character `c` against a lowercase
ASCII pattern letter `d` (JavaScript `i` flag semantics for ASCII letters). -/
def ciLetter (c d : Char) : Bool :=
  decide (c = d) || decide (c.toNat + 32 = d.toNat)

/-- Case-insensitive match of a subject string against a lowercase ASCII
pattern word, character by character. -/
def ciStr : Str → Str → Bool
  | [], [] => true
  | c :: cs, d :: ds => ciLetter c d && ciStr cs ds
  | _, _ => false

/-- Does the GitHub token pattern `<P><36 alphanumerics>` (regex
`P[a-zA-Z0-9]{36}` for a 4-character prefix `P`) match at the front of `s`? -/
def tokHereB (P s : Str) : Bool :=
  decide (s.take 4 = P) && ((s.drop 4).take 36).all isAlnumCh && decide (40 ≤ s.length)

/-- One entry of `Logger.sensitivePatterns`: a matcher that, given the
previous character (for `\b` lookbehind) and the remaining input, reports how
many characters the regex consumes at this position, plus the replacement
text. -/
structure Rule where
  matchLen : Option Char → Str → Option Nat
  lit : Str

/-- The rule `{ pattern: /P[a-zA-Z0-9]{36}/g, replacement: 'P[REDACTED]' }`
for a token prefix `P` (one of `ghp_`, `gho_`, `ghs_`, `ghr_`). -/
def tokRule (P : Str) : Rule :=
  ⟨fun _ s => if tokHereB P s then some 40 else none, P ++ ("[REDACTED]").data⟩

/-- The rule `{ pattern: /\b[a-f0-9]{40,}\b/gi, replacement: '[REDACTED_TOKEN]' }`.
The greedy `{40,}` together with the trailing `\b` matches exactly a maximal
hex run of length at least 40 whose neighbours are non-word characters. -/
def hexRule : Rule :=
  ⟨fun prev s =>
    let run := s.takeWhile isHexCh
    let prevOK := match prev with | none => true | some c => !isWordCh c
    let nextOK := match (s.drop run.length).head? with | none => true | some c => !isWordCh c
    if prevOK && decide (40 ≤ run.length) && nextOK then some run.length else none,
   ("[REDACTED_TOKEN]").data⟩

/-- Match length of `/authorization:\s*<w>\s+[^\s]+/i` at the front of `s`,
where `w` is the lowercase pattern word (`bearer` or `token`). -/
def authMatchLen (w : Str) (s : Str) : Option Nat :=
  let s1 := s.drop 13
  if ciStr (s.take 13) (("authorization").data) && decide (s1.take 1 = [':']) then
    let s2 := s1.drop 1
    let ws1 := s2.takeWhile isWsCh
    let s3 := s2.drop ws1.length
    if ciStr (s3.take w.length) w then
      let s4 := s3.drop w.length
      let ws2 := s4.takeWhile isWsCh
      let s5 := s4.drop ws2.length
      let nw := s5.takeWhile (fun c => !isWsCh c)
      if decide (1 ≤ ws2.length) && decide (1 ≤ nw.length) then
        some (13 + 1 + ws1.length + w.length + ws2.length + nw.length)
      else none
    else none
  else none

/-- The rule `{ pattern: /authorization:\s*<w>\s+[^\s]+/gi,
replacement: 'authorization: <w> [REDACTED]' }`. -/
def authRule (w : Str) : Rule :=
  ⟨fun _ s => authMatchLen w s, ("authorization: ").data ++ w ++ (" [REDACTED]").data⟩

/-- `Logger.sensitivePatterns`, in source order. -/
def sensitivePatterns : List Rule :=
  [tokRule (("ghp_").data), tokRule (("gho_").data),
   tokRule (("ghs_").data), tokRule (("ghr_").data),
   hexRule, authRule (("bearer").data), authRule (("token").data)]

/-- One `String.prototype.replace` pass with a global regex: scan left to
right; at each position either the matcher consumes `n ≥ 1` characters and
the replacement text is emitted, or the current character is emitted
unchanged and the scan advances by one. -/
def applyRuleGo (r : Rule) (prev : Option Char) (s : Str) : Str :=
  match s with
  | [] => []
  | c :: rest =>
    match r.matchLen prev (c :: rest) with
    | some n =>
      if h : 1 ≤ n ∧ n ≤ (c :: rest).length then
        r.lit ++ applyRuleGo r ((c :: rest).take n).getLast? ((c :: rest).drop n)
      else
        c :: applyRuleGo r (some c) rest
    | none => c :: applyRuleGo r (some c) rest
termination_by s.length
decreasing_by
  all_goals simp only [List.length_drop, List.length_cons]
  all_goals omega

/-- `sanitized.replace(pattern, replacement)` for one rule, starting at the
beginning of the string (no previous character). -/
def applyRule (r : Rule) (s : Str) : Str :=
  applyRuleGo r none s

/-- `Logger.sanitize`: apply every pattern of `sensitivePatterns` in order. -/
def sanitize (s : Str) : Str :=
  sensitivePatterns.foldl (fun acc r => applyRule r acc) s

/-- Characters that can occur anywhere in a GitHub token
(`[a-zA-Z0-9]` plus the underscore of the prefix). -/
def tokChar (c : Char) : Bool :=
  isAlnumCh c || decide (c.toNat = 95)

theorem tokChar_of_alnum {c : Char} (h : isAlnumCh c = true) : tokChar c = true := by
  simp [tokChar, h]

theorem all_tokChar_of_all_alnum {l : Str} (h : l.all isAlnumCh = true) :
    l.all tokChar = true := by
  rw [List.all_eq_true] at h ⊢
  intro x hx
  exact tokChar_of_alnum (h x hx)

/-- `s` contains an occurrence of the token pattern `P` + 36 alphanumerics. -/
def hasTok (P s : Str) : Prop :=
  ∃ pre body suf, s = pre ++ P ++ body ++ suf ∧
    body.length = 36 ∧ body.all isAlnumCh = true

theorem length_takeWhile_le (p : Char → Bool) (l : Str) :
    (l.takeWhile p).length ≤ l.length := by
  induction l with
  | nil => simp
  | cons x xs ih =>
    by_cases h : p x = true
    · simp [List.takeWhile_cons, h]
      omega
    · simp [List.takeWhile_cons, h]

/-- Substituting the matched text `mt` of a sanitization rule by the rule's
replacement literal `lit` cannot create a token occurrence: any token
occurrence of the result `h ++ lit ++ rest` either lies entirely behind the
literal (left disjunct), or maps to a token occurrence of `h ++ mt ++ rest`
starting strictly inside `h` (right disjunct). -/
theorem subst_decomp
    {P lit mt rest h pre body suf : Str}
    (hlit_ne : lit ≠ [])
    (hlit_len : lit.length ≤ 36)
    (hlit_last : ∀ c, lit.getLast? = some c → tokChar c = false)
    (hmt : ∀ t, 1 ≤ t → t ≤ lit.length → (lit.take t).all isAlnumCh = true →
            t ≤ mt.length ∧ (mt.take t).all isAlnumCh = true)
    (hP4 : P.length = 4)
    (hPtok : P.all tokChar = true)
    (heq : h ++ lit ++ rest = pre ++ P ++ body ++ suf)
    (hb : body.length = 36) (hba : body.all isAlnumCh = true) :
    (∃ e, pre = h ++ lit ++ e ∧ rest = e ++ P ++ body ++ suf) ∨
    (∃ body2 suf2, h ++ mt ++ rest = pre ++ P ++ body2 ++ suf2 ∧
       body2.length = 36 ∧ body2.all isAlnumCh = true ∧ pre.length < h.length) := by
  have heq2 : h ++ (lit ++ rest) = pre ++ ((P ++ body) ++ suf) := by
    simpa [List.append_assoc] using heq
  rcases List.append_eq_append_iff.mp heq2 with ⟨d, hpre, hlr⟩ | ⟨d, hh, hts⟩
  · -- pre extends past h: pre = h ++ d and lit ++ rest = d ++ (token ++ suf)
    rcases List.append_eq_append_iff.mp hlr with ⟨e, hd, hrest⟩ | ⟨e, hlit, hX⟩
    · -- d = lit ++ e: occurrence entirely inside rest
      left
      exact ⟨e, by simp [hpre, hd, List.append_assoc],
                by simp [hrest, List.append_assoc]⟩
    · -- lit = d ++ e and token ++ suf = e ++ rest
      by_cases he : e = []
      · subst he
        left
        refine ⟨[], ?_, ?_⟩
        · simp only [List.append_nil] at hlit
          simp [hpre, hlit]
        · simp only [List.nil_append] at hX
          simp [← hX, List.append_assoc]
      · rcases List.append_eq_append_iff.mp hX with ⟨f, he2, hsuf⟩ | ⟨f, hPb, hrest2⟩
        · -- e = (P ++ body) ++ f: impossible, e is at most as long as lit
          exfalso
          have h1 : lit.length = d.length + e.length := by simp [hlit]
          have h2 : e.length = 40 + f.length := by
            simp [he2, List.length_append, hP4, hb]
            omega
          omega
        · -- P ++ body = e ++ f: e is a nonempty prefix of the token,
          -- so the last character of lit would be a token character
          exfalso
          have htokall : (P ++ body).all tokChar = true := by
            simp [List.all_append, hPtok, all_tokChar_of_all_alnum hba]
          have heall : e.all tokChar = true := by
            rw [hPb, List.all_append, Bool.and_eq_true_iff] at htokall
            exact htokall.1
          obtain ⟨c, hc⟩ : ∃ c, e.getLast? = some c := by
            have h1 : e.getLast? ≠ none := by
              simpa [List.getLast?_eq_none_iff] using he
            exact Option.ne_none_iff_exists'.mp h1
          have hcl : lit.getLast? = some c := by
            rw [hlit, List.getLast?_append, hc]
            rfl
          have hcm : c ∈ e := List.mem_of_getLast?_eq_some hc
          have hct : tokChar c = true := List.all_eq_true.mp heall c hcm
          rw [hlit_last c hcl] at hct
          exact absurd hct (by simp)
  · -- pre ends inside h: h = pre ++ d and token ++ suf = d ++ (lit ++ rest)
    right
    rcases List.append_eq_append_iff.mp hts with ⟨e, hd2, hsuf⟩ | ⟨e, hPb, hlr2⟩
    · -- d = (P ++ body) ++ e: the occurrence lies entirely inside h
      refine ⟨body, e ++ mt ++ rest, ?_, hb, hba, ?_⟩
      · simp [hh, hd2, List.append_assoc]
      · have : h.length = pre.length + (4 + (36 + e.length)) := by
          simp [hh, hd2, List.length_append, hP4, hb]
        omega
    · -- P ++ body = d ++ e and lit ++ rest = e ++ suf
      by_cases he : e = []
      · -- the token is exactly the tail of h
        subst he
        simp only [List.append_nil] at hPb
        simp only [List.nil_append] at hlr2
        refine ⟨body, mt ++ rest, ?_, hb, hba, ?_⟩
        · simp [hh, ← hPb, List.append_assoc]
        · have : h.length = pre.length + (4 + 36) := by
            simp [hh, ← hPb, List.length_append, hP4, hb]
          omega
      · rcases List.append_eq_append_iff.mp hlr2 with ⟨f, he2, hrest2⟩ | ⟨f, hlit2, hsuf2⟩
        · -- e = lit ++ f: lit would sit inside the token
          exfalso
          have htokall : (P ++ body).all tokChar = true := by
            simp [List.all_append, hPtok, all_tokChar_of_all_alnum hba]
          have heall : e.all tokChar = true := by
            rw [hPb, List.all_append, Bool.and_eq_true_iff] at htokall
            exact htokall.2
          obtain ⟨c, hc⟩ : ∃ c, lit.getLast? = some c := by
            have h1 : lit.getLast? ≠ none := by
              simpa [List.getLast?_eq_none_iff] using hlit_ne
            exact Option.ne_none_iff_exists'.mp h1
          have hcm : c ∈ lit := List.mem_of_getLast?_eq_some hc
          have hcm2 : c ∈ e := by
            rw [he2]
            exact List.mem_append_left f hcm
          have hct : tokChar c = true := List.all_eq_true.mp heall c hcm2
          rw [hlit_last c hc] at hct
          exact absurd hct (by simp)
        · -- lit = e ++ f and suf = f ++ rest: the token's tail e overlaps lit
          have ht1 : 1 ≤ e.length := by
            have := List.length_pos.mpr he
            omega
          have ht2 : e.length ≤ lit.length := by
            simp [hlit2]
          have hetake : lit.take e.length = e := by
            rw [hlit2]
            exact List.take_left e f
          rcases List.append_eq_append_iff.mp hPb with ⟨g, hd3, hbody⟩ | ⟨g, hP2, he3⟩
          · -- d = P ++ g and body = g ++ e
            have healnum : e.all isAlnumCh = true := by
              rw [hbody, List.all_append, Bool.and_eq_true_iff] at hba
              exact hba.2
            obtain ⟨htm, hmta⟩ := hmt e.length ht1 ht2 (by rw [hetake]; exact healnum)
            refine ⟨g ++ mt.take e.length, mt.drop e.length ++ rest, ?_, ?_, ?_, ?_⟩
            · have hsplit : mt.take e.length ++ (mt.drop e.length ++ rest) = mt ++ rest := by
                rw [← List.append_assoc, List.take_append_drop]
              simp [hh, hd3, List.append_assoc, hsplit]
            · have hgl : g.length + e.length = 36 := by
                have := hb
                rw [hbody] at this
                simpa [List.length_append] using this
              simp [List.length_append, List.length_take]
              omega
            · have hga : g.all isAlnumCh = true := by
                rw [hbody, List.all_append, Bool.and_eq_true_iff] at hba
                exact hba.1
              simp [List.all_append, hga, hmta]
            · have : h.length = pre.length + (4 + g.length) := by
                simp [hh, hd3, List.length_append, hP4]
              omega
          · -- P = d ++ g and e = g ++ body: forces lit = body, contradiction
            exfalso
            have hlg : e.length = g.length + 36 := by
              simp [he3, List.length_append, hb]
            have hle36 : e.length ≤ 36 := le_trans ht2 hlit_len
            have hg0 : g.length = 0 := by omega
            have hgnil : g = [] := List.length_eq_zero.mp hg0
            subst hgnil
            simp only [List.nil_append] at he3
            subst he3
            have hf0 : f.length = 0 := by
              have h1 : lit.length = e.length + f.length := by
                simp [hlit2]
              omega
            have hfnil : f = [] := List.length_eq_zero.mp hf0
            subst hfnil
            simp only [List.append_nil] at hlit2
            obtain ⟨c, hc⟩ : ∃ c, lit.getLast? = some c := by
              have h1 : lit.getLast? ≠ none := by
                simpa [List.getLast?_eq_none_iff] using hlit_ne
              exact Option.ne_none_iff_exists'.mp h1
            have hcm : c ∈ lit := List.mem_of_getLast?_eq_some hc
            have hca : isAlnumCh c = true := by
              refine List.all_eq_true.mp ?_ c hcm
              rw [hlit2]
              exact hba
            have hct : tokChar c = true := tokChar_of_alnum hca
            rw [hlit_last c hc] at hct
            exact absurd hct (by simp)

theorem all_take {l : Str} {p : Char → Bool} (h : l.all p = true) (k : Nat) :
    (l.take k).all p = true := by
  rw [List.all_eq_true] at h ⊢
  intro x hx
  exact h x (List.mem_of_mem_take hx)

theorem all_take_mono {l : Str} {p : Char → Bool} {t k : Nat}
    (h : (l.take t).all p = true) (hk : k ≤ t) : (l.take k).all p = true := by
  have h2 := all_take h k
  rwa [List.take_take, Nat.min_eq_left hk] at h2

/-- Structural facts about a sanitization rule that make it unable to
produce new token occurrences. -/
structure RuleOK (r : Rule) : Prop where
  lit_ne : r.lit ≠ []
  lit_len : r.lit.length ≤ 36
  lit_last : ∀ c, r.lit.getLast? = some c → tokChar c = false
  valid : ∀ prev s n, r.matchLen prev s = some n → 1 ≤ n ∧ n ≤ s.length
  mt_ok : ∀ prev s n, r.matchLen prev s = some n →
      ∀ t, 1 ≤ t → t ≤ r.lit.length → (r.lit.take t).all isAlnumCh = true →
        t ≤ (s.take n).length ∧ ((s.take n).take t).all isAlnumCh = true

/-- A scan pass by a structurally sound rule never creates a token
occurrence that was not already present. -/
theorem go_preserves {r : Rule} (hok : RuleOK r) {P : Str} (hP4 : P.length = 4)
    (hPtok : P.all tokChar = true) :
    ∀ N s, s.length ≤ N → ∀ (prev : Option Char) (h : Str),
      ¬ hasTok P (h ++ s) → ¬ hasTok P (h ++ applyRuleGo r prev s) := by
  intro N
  induction N with
  | zero =>
    intro s hs prev h hno
    have h0 : s = [] := List.length_eq_zero.mp (Nat.le_zero.mp hs)
    subst h0
    simpa [applyRuleGo] using hno
  | succ N ih =>
    intro s hs prev h hno
    cases s with
    | nil => simpa [applyRuleGo] using hno
    | cons c rest =>
      rw [applyRuleGo]
      cases hm : r.matchLen prev (c :: rest) with
      | none =>
        simp only [hm]
        have h2 := ih rest (by simp at hs; omega) (some c) (h ++ [c])
          (by simpa [List.append_assoc] using hno)
        simpa [List.append_assoc] using h2
      | some n =>
        simp only [hm]
        rcases hok.valid prev (c :: rest) n hm with ⟨hn1, hn2⟩
        rw [dif_pos ⟨hn1, hn2⟩]
        have hs' : ((c :: rest).drop n).length ≤ N := by
          simp only [List.length_drop, List.length_cons] at *
          omega
        have hnomid : ¬ hasTok P ((h ++ r.lit) ++ (c :: rest).drop n) := by
          intro hcontra
          obtain ⟨pre, body, suf, heq, hb, hba⟩ := hcontra
          have heq' : h ++ r.lit ++ (c :: rest).drop n = pre ++ P ++ body ++ suf := by
            simpa [List.append_assoc] using heq
          have hmt := hok.mt_ok prev (c :: rest) n hm
          rcases subst_decomp hok.lit_ne hok.lit_len hok.lit_last hmt hP4 hPtok
              heq' hb hba with ⟨e, hpre, hrest⟩ | ⟨b2, s2, heq2, hb2, hba2, hlt⟩
          · apply hno
            refine ⟨h ++ (c :: rest).take n ++ e, body, suf, ?_, hb, hba⟩
            conv_lhs =>
              rw [show (c :: rest : Str) = (c :: rest).take n ++ (c :: rest).drop n from
                    (List.take_append_drop n (c :: rest)).symm]
            rw [hrest]
            simp [List.append_assoc]
          · apply hno
            refine ⟨pre, b2, s2, ?_, hb2, hba2⟩
            conv_lhs =>
              rw [show (c :: rest : Str) = (c :: rest).take n ++ (c :: rest).drop n from
                    (List.take_append_drop n (c :: rest)).symm]
            simpa [List.append_assoc] using heq2
        have h3 := ih ((c :: rest).drop n) hs' ((c :: rest).take n).getLast?
          (h ++ r.lit) hnomid
        simpa [List.append_assoc] using h3

theorem tokHereB_of_front {P body suf : Str} (hP4 : P.length = 4)
    (hb : body.length = 36) (hba : body.all isAlnumCh = true) :
    tokHereB P (P ++ body ++ suf) = true := by
  have h1 : (P ++ body ++ suf).take 4 = P := by
    rw [List.append_assoc]
    exact List.take_left' hP4
  have h2 : (P ++ body ++ suf).drop 4 = body ++ suf := by
    rw [List.append_assoc]
    exact List.drop_left' hP4
  have h3 : ((P ++ body ++ suf).drop 4).take 36 = body := by
    rw [h2]
    exact List.take_left' hb
  rw [tokHereB, h1, h3]
  simp only [Bool.and_eq_true_iff, decide_eq_true_eq]
  refine ⟨⟨trivial, hba⟩, ?_⟩
  simp only [List.length_append, hP4, hb]
  omega

theorem tokHereB_length {P s : Str} (h : tokHereB P s = true) : 40 ≤ s.length := by
  simp only [tokHereB, Bool.and_eq_true_iff, decide_eq_true_eq] at h
  exact h.2

theorem tokHereB_take4 {P s : Str} (h : tokHereB P s = true) : s.take 4 = P := by
  simp only [tokHereB, Bool.and_eq_true_iff, decide_eq_true_eq] at h
  exact h.1.1

/-- A scan pass of the token rule for `P` removes every occurrence of the
`P`-token pattern: no occurrence can start at or after a position the scan
has reached.  `h` is the already-emitted output, and the hypothesis says
every token occurrence of the original string starts strictly inside `h`. -/
theorem go_complete {P : Str} (hok : RuleOK (tokRule P)) (hP4 : P.length = 4)
    (hPtok : P.all tokChar = true) :
    ∀ N s, s.length ≤ N → ∀ (prev : Option Char) (h : Str),
      (∀ pre body suf, h ++ s = pre ++ P ++ body ++ suf → body.length = 36 →
        body.all isAlnumCh = true → h.length ≤ pre.length) →
      ¬ hasTok P (h ++ applyRuleGo (tokRule P) prev s) := by
  intro N
  induction N with
  | zero =>
    intro s hs prev h hbefore
    have h0 : s = [] := List.length_eq_zero.mp (Nat.le_zero.mp hs)
    subst h0
    rintro ⟨pre, body, suf, heq, hb, hba⟩
    simp only [applyRuleGo, List.append_nil] at heq
    have h1 := hbefore pre body suf (by simp [heq]) hb hba
    have hL := congrArg List.length heq
    simp only [List.length_append, hP4, hb] at hL
    omega
  | succ N ih =>
    intro s hs prev h hbefore
    cases s with
    | nil =>
      rintro ⟨pre, body, suf, heq, hb, hba⟩
      simp only [applyRuleGo, List.append_nil] at heq
      have h1 := hbefore pre body suf (by simp [heq]) hb hba
      have hL := congrArg List.length heq
      simp only [List.length_append, hP4, hb] at hL
      omega
    | cons c rest =>
      rw [applyRuleGo]
      cases htk : tokHereB P (c :: rest) with
      | false =>
        have hm : (tokRule P).matchLen prev (c :: rest) = none := by
          simp [tokRule, htk]
        simp only [hm]
        have hbefore2 : ∀ pre body suf,
            (h ++ [c]) ++ rest = pre ++ P ++ body ++ suf → body.length = 36 →
            body.all isAlnumCh = true → (h ++ [c]).length ≤ pre.length := by
          intro pre body suf heq hb hba
          have heq' : h ++ (c :: rest) = pre ++ P ++ body ++ suf := by
            simpa [List.append_assoc] using heq
          have h1 := hbefore pre body suf heq' hb hba
          by_cases hpe : pre.length = h.length
          · exfalso
            have heq'' : h ++ (c :: rest) = pre ++ (P ++ (body ++ suf)) := by
              simpa [List.append_assoc] using heq
            obtain ⟨hpre_eq, hrest_eq⟩ := List.append_inj heq'' hpe.symm
            have htk2 : tokHereB P (c :: rest) = true := by
              rw [show (c :: rest : Str) = P ++ body ++ suf by
                    simpa [List.append_assoc] using hrest_eq]
              exact tokHereB_of_front hP4 hb hba
            rw [htk] at htk2
            exact absurd htk2 (by simp)
          · simp only [List.length_append, List.length_cons, List.length_nil]
            omega
        have h2 := ih rest (by simp at hs; omega) (some c) (h ++ [c]) hbefore2
        intro hcontra
        apply h2
        simpa [List.append_assoc] using hcontra
      | true =>
        have hm : (tokRule P).matchLen prev (c :: rest) = some 40 := by
          simp [tokRule, htk]
        simp only [hm]
        have hlen40 : 40 ≤ (c :: rest).length := tokHereB_length htk
        rw [dif_pos ⟨by omega, hlen40⟩]
        have hs' : ((c :: rest).drop 40).length ≤ N := by
          simp only [List.length_drop, List.length_cons] at *
          omega
        have hbefore' : ∀ pre body suf,
            (h ++ (tokRule P).lit) ++ (c :: rest).drop 40 = pre ++ P ++ body ++ suf →
            body.length = 36 → body.all isAlnumCh = true →
            (h ++ (tokRule P).lit).length ≤ pre.length := by
          intro pre body suf heq hb hba
          have heq' : h ++ (tokRule P).lit ++ (c :: rest).drop 40 =
              pre ++ P ++ body ++ suf := by
            simpa [List.append_assoc] using heq
          have hmt := hok.mt_ok prev (c :: rest) 40 hm
          rcases subst_decomp hok.lit_ne hok.lit_len hok.lit_last hmt hP4 hPtok
              heq' hb hba with ⟨e, hpre, hrest⟩ | ⟨b2, s2, heq2, hb2, hba2, hlt⟩
          · rw [hpre]
            simp [List.length_append]
          · exfalso
            have heq3 : h ++ (c :: rest) = pre ++ P ++ b2 ++ s2 := by
              conv_lhs =>
                rw [show (c :: rest : Str) = (c :: rest).take 40 ++ (c :: rest).drop 40 from
                      (List.take_append_drop 40 (c :: rest)).symm]
              simpa [List.append_assoc] using heq2
            have h1 := hbefore pre b2 s2 heq3 hb2 hba2
            omega
        have h3 := ih ((c :: rest).drop 40) hs' ((c :: rest).take 40).getLast?
          (h ++ (tokRule P).lit) hbefore'
        intro hcontra
        apply h3
        simpa [List.append_assoc] using hcontra

theorem ruleOK_tok (a b c : Char) : RuleOK (tokRule [a, b, c, '_']) := by
  constructor
  · simp [tokRule]
  · show (([a, b, c, '_'] : Str) ++ ("[REDACTED]").data).length ≤ 36
    simp [List.length_append]
  · intro ch hch
    have h1 : (([a, b, c, '_'] : Str) ++ ("[REDACTED]").data).getLast? = some ']' := rfl
    rw [show (tokRule [a, b, c, '_']).lit = ([a, b, c, '_'] : Str) ++ ("[REDACTED]").data
          from rfl, h1] at hch
    cases hch
    decide
  · intro prev s n hm
    simp only [tokRule] at hm
    split_ifs at hm with htk
    · cases hm
      exact ⟨by omega, tokHereB_length htk⟩
  · intro prev s n hm t ht1 ht2 hta
    simp only [tokRule] at hm ht2 hta
    split_ifs at hm with htk
    cases hm
    have hs40 : 40 ≤ s.length := tokHereB_length htk
    have hmtlen : (s.take 40).length = 40 := by
      simp only [List.length_take]
      omega
    have hlitlen : (([a, b, c, '_'] : Str) ++ ("[REDACTED]").data).length = 14 := rfl
    rw [hlitlen] at ht2
    by_cases ht3 : t ≤ 3
    · constructor
      · omega
      · have e1 : (s.take 40).take t = s.take t := by
          rw [List.take_take]
          congr 1
          omega
        have e2a : (s.take 4).take t = s.take t := by
          rw [List.take_take]
          congr 1
          omega
        have e3 : (([a, b, c, '_'] : Str) ++ ("[REDACTED]").data).take t =
            ([a, b, c, '_'] : Str).take t := by
          apply List.take_append_of_le_length
          simp
          omega
        rw [e1, ← e2a, tokHereB_take4 htk, ← e3]
        exact hta
    · exfalso
      have h4 : ((([a, b, c, '_'] : Str) ++ ("[REDACTED]").data).take 4).all isAlnumCh
          = true := all_take_mono hta (by omega)
      have h5 : ((([a, b, c, '_'] : Str) ++ ("[REDACTED]").data).take 4) =
          ([a, b, c, '_'] : Str) := List.take_left' rfl
      rw [h5] at h4
      have hmem : ('_' : Char) ∈ ([a, b, c, '_'] : Str) := by simp
      exact absurd (List.all_eq_true.mp h4 '_' hmem) (by decide)

theorem ruleOK_hex : RuleOK hexRule := by
  constructor
  · show ("[REDACTED_TOKEN]").data ≠ []
    decide
  · show (("[REDACTED_TOKEN]").data).length ≤ 36
    decide
  · intro ch hch
    have h1 : (("[REDACTED_TOKEN]").data).getLast? = some ']' := rfl
    rw [show hexRule.lit = ("[REDACTED_TOKEN]").data from rfl, h1] at hch
    cases hch
    decide
  · intro prev s n hm
    simp only [hexRule] at hm
    split_ifs at hm with hcond
    · cases hm
      rw [Bool.and_eq_true_iff, Bool.and_eq_true_iff] at hcond
      have h40 : 40 ≤ (s.takeWhile isHexCh).length := by
        have := hcond.1.2
        simpa using this
      exact ⟨by omega, length_takeWhile_le isHexCh s⟩
  · intro prev s n hm t ht1 ht2 hta
    exfalso
    obtain ⟨t', rfl⟩ : ∃ t', t = t' + 1 := ⟨t - 1, by omega⟩
    have hmem : ('[' : Char) ∈ hexRule.lit.take (t' + 1) := by
      rw [show hexRule.lit = '[' :: ("REDACTED_TOKEN]").data from rfl]
      simp [List.take_succ_cons]
    exact absurd (List.all_eq_true.mp hta '[' hmem) (by decide)

theorem ciStr_length : ∀ {u v : Str}, ciStr u v = true → u.length = v.length := by
  intro u
  induction u with
  | nil =>
    intro v h
    cases v with
    | nil => rfl
    | cons d ds => simp [ciStr] at h
  | cons ch cs ih =>
    intro v h
    cases v with
    | nil => simp [ciStr] at h
    | cons d ds =>
      simp only [ciStr, Bool.and_eq_true_iff] at h
      simp [ih h.2]

theorem ciLetter_alnum {ch d : Char} (h : ciLetter ch d = true)
    (h1 : 97 ≤ d.toNat) (h2 : d.toNat ≤ 122) : isAlnumCh ch = true := by
  simp only [ciLetter, Bool.or_eq_true, decide_eq_true_eq] at h
  rcases h with h | h
  · subst h
    simp only [isAlnumCh, Bool.or_eq_true, Bool.and_eq_true_iff, decide_eq_true_eq]
    omega
  · simp only [isAlnumCh, Bool.or_eq_true, Bool.and_eq_true_iff, decide_eq_true_eq]
    omega

theorem ciStr_alnum : ∀ {u v : Str}, ciStr u v = true →
    (v.all (fun d => decide (97 ≤ d.toNat) && decide (d.toNat ≤ 122)) = true) →
    u.all isAlnumCh = true := by
  intro u
  induction u with
  | nil => intro v h hv; rfl
  | cons ch cs ih =>
    intro v h hv
    cases v with
    | nil => simp [ciStr] at h
    | cons d ds =>
      simp only [ciStr, Bool.and_eq_true_iff] at h
      simp only [List.all_cons, Bool.and_eq_true_iff, decide_eq_true_eq] at hv
      simp only [List.all_cons, Bool.and_eq_true_iff]
      exact ⟨ciLetter_alnum h.1 hv.1.1 hv.1.2, ih h.2 hv.2⟩

theorem authMatchLen_some {w s : Str} {n : Nat} (hm : authMatchLen w s = some n) :
    (1 ≤ n ∧ n ≤ s.length) ∧
    ciStr (s.take 13) (("authorization").data) = true ∧ 14 ≤ n := by
  simp only [authMatchLen] at hm
  split_ifs at hm with h1 h2 h3
  rw [Option.some_inj] at hm
  rw [Bool.and_eq_true_iff, decide_eq_true_eq] at h1 h3
  obtain ⟨hA, hColon⟩ := h1
  obtain ⟨hws2, hnw⟩ := h3
  have l13 : (s.take 13).length = 13 := by
    rw [ciStr_length hA]
    rfl
  have l13b : 13 ≤ s.length := by
    simp only [List.length_take] at l13
    omega
  have lc : 1 ≤ (s.drop 13).length := by
    have : ((s.drop 13).take 1).length = 1 := by rw [hColon]; rfl
    simp only [List.length_take] at this
    omega
  have lw : w.length ≤ ((s.drop 13).drop 1).length -
      (((s.drop 13).drop 1).takeWhile isWsCh).length := by
    have := ciStr_length h2
    simp only [List.length_take, List.length_drop] at this ⊢
    omega
  have lws1 := length_takeWhile_le isWsCh ((s.drop 13).drop 1)
  have lws2 := length_takeWhile_le isWsCh
    ((((s.drop 13).drop 1).drop (((s.drop 13).drop 1).takeWhile isWsCh).length).drop w.length)
  have lnw := length_takeWhile_le (fun c => !isWsCh c)
    (((((s.drop 13).drop 1).drop (((s.drop 13).drop 1).takeWhile isWsCh).length).drop
        w.length).drop
      (((((s.drop 13).drop 1).drop (((s.drop 13).drop 1).takeWhile isWsCh).length).drop
          w.length).takeWhile isWsCh).length)
  refine ⟨⟨?_, ?_⟩, hA, ?_⟩
  · omega
  · simp only [List.length_drop] at lws1 lws2 lnw lw
    omega
  · omega

theorem ruleOK_auth (w : Str) (hw10 : w.length ≤ 10) : RuleOK (authRule w) := by
  have hlit : (authRule w).lit =
      (("authorization: ").data ++ w) ++ (" [REDACTED]").data := by
    simp [authRule, List.append_assoc]
  constructor
  · rw [hlit]
    simp
  · rw [hlit]
    simp only [List.length_append, List.length_cons, List.length_nil]
    omega
  · intro ch hch
    rw [hlit, List.getLast?_append] at hch
    have h1 : ((" [REDACTED]").data).getLast? = some ']' := rfl
    rw [h1] at hch
    cases hch
    decide
  · intro prev s n hm
    exact (authMatchLen_some hm).1
  · intro prev s n hm t ht1 ht2 hta
    obtain ⟨⟨hn1, hn2⟩, hA, hn14⟩ := authMatchLen_some hm
    by_cases ht13 : t ≤ 13
    · have hlenmt : (s.take n).length = n := by
        simp only [List.length_take]
        omega
      constructor
      · omega
      · have e1 : (s.take n).take t = s.take t := by
          rw [List.take_take]
          congr 1
          omega
        have e2 : (s.take 13).take t = s.take t := by
          rw [List.take_take]
          congr 1
          omega
        have h13 : (s.take 13).all isAlnumCh = true := by
          apply ciStr_alnum hA
          decide
        rw [e1, ← e2]
        exact all_take h13 t
    · exfalso
      have h4 : ((authRule w).lit.take 14).all isAlnumCh = true :=
        all_take_mono hta (by omega)
      have h5 : (authRule w).lit.take 14 = ("authorization:").data := by
        rw [hlit]
        rw [List.take_append_of_le_length (by
          simp only [List.length_append, List.length_cons, List.length_nil]
          omega)]
        rw [List.take_append_of_le_length (by
          simp only [List.length_cons, List.length_nil]
          omega)]
        rfl
      rw [h5] at h4
      exact absurd h4 (by decide)

theorem applyRule_preserves {r : Rule} (hok : RuleOK r) {P : Str} (hP4 : P.length = 4)
    (hPtok : P.all tokChar = true) {s : Str} (hno : ¬ hasTok P s) :
    ¬ hasTok P (applyRule r s) := by
  have h := go_preserves hok hP4 hPtok s.length s le_rfl none [] (by simpa using hno)
  simpa [applyRule] using h

theorem applyRule_tok_noTok {P : Str} (hok : RuleOK (tokRule P)) (hP4 : P.length = 4)
    (hPtok : P.all tokChar = true) (s : Str) :
    ¬ hasTok P (applyRule (tokRule P) s) := by
  have h := go_complete hok hP4 hPtok s.length s le_rfl none [] ?_
  · simpa [applyRule] using h
  · intro pre body suf _ _ _
    simp

/-- After the full sanitization pipeline no GitHub token pattern survives,
for any of the four provider prefixes. -/
theorem sanitize_noTok (P : Str)
    (hmem : P = ("ghp_").data ∨ P = ("gho_").data ∨ P = ("ghs_").data ∨
      P = ("ghr_").data) (s : Str) : ¬ hasTok P (sanitize s) := by
  have hsan : sanitize s =
      applyRule (authRule (("token").data))
        (applyRule (authRule (("bearer").data))
          (applyRule hexRule
            (applyRule (tokRule (("ghr_").data))
              (applyRule (tokRule (("ghs_").data))
                (applyRule (tokRule (("gho_").data))
                  (applyRule (tokRule (("ghp_").data)) s)))))) := rfl
  rw [hsan]
  rcases hmem with h | h | h | h <;> subst h
  · exact applyRule_preserves (ruleOK_auth _ (by decide)) (by decide) (by decide)
      (applyRule_preserves (ruleOK_auth _ (by decide)) (by decide) (by decide)
        (applyRule_preserves ruleOK_hex (by decide) (by decide)
          (applyRule_preserves (ruleOK_tok 'g' 'h' 'r') (by decide) (by decide)
            (applyRule_preserves (ruleOK_tok 'g' 'h' 's') (by decide) (by decide)
              (applyRule_preserves (ruleOK_tok 'g' 'h' 'o') (by decide) (by decide)
                (applyRule_tok_noTok (ruleOK_tok 'g' 'h' 'p') (by decide) (by decide) s))))))
  · exact applyRule_preserves (ruleOK_auth _ (by decide)) (by decide) (by decide)
      (applyRule_preserves (ruleOK_auth _ (by decide)) (by decide) (by decide)
        (applyRule_preserves ruleOK_hex (by decide) (by decide)
          (applyRule_preserves (ruleOK_tok 'g' 'h' 'r') (by decide) (by decide)
            (applyRule_preserves (ruleOK_tok 'g' 'h' 's') (by decide) (by decide)
              (applyRule_tok_noTok (ruleOK_tok 'g' 'h' 'o') (by decide) (by decide) _)))))
  · exact applyRule_preserves (ruleOK_auth _ (by decide)) (by decide) (by decide)
      (applyRule_preserves (ruleOK_auth _ (by decide)) (by decide) (by decide)
        (applyRule_preserves ruleOK_hex (by decide) (by decide)
          (applyRule_preserves (ruleOK_tok 'g' 'h' 'r') (by decide) (by decide)
            (applyRule_tok_noTok (ruleOK_tok 'g' 'h' 's') (by decide) (by decide) _))))
  · exact applyRule_preserves (ruleOK_auth _ (by decide)) (by decide) (by decide)
      (applyRule_preserves (ruleOK_auth _ (by decide)) (by decide) (by decide)
        (applyRule_preserves ruleOK_hex (by decide) (by decide)
          (applyRule_tok_noTok (ruleOK_tok 'g' 'h' 'r') (by decide) (by decide) _)))

/-- Substring containment, written with an explicit decomposition. -/
def containsSub (s sub : Str) : Prop :=
  ∃ pre suf, s = pre ++ sub ++ suf

theorem hasTok_of_containsSub {P body s : Str} (hb : body.length = 36)
    (hba : body.all isAlnumCh = true) (h : containsSub s (P ++ body)) : hasTok P s := by
  obtain ⟨pre, suf, heq⟩ := h
  exact ⟨pre, body, suf, by simpa [List.append_assoc] using heq, hb, hba⟩

/-- Applying the token rule for prefix `P` to a bare well-formed token yields
exactly `P` followed by `[REDACTED]`. -/
theorem applyRule_tok_self {P body : Str} (hP4 : P.length = 4) (hb : body.length = 36)
    (hba : body.all isAlnumCh = true) :
    applyRule (tokRule P) (P ++ body) = P ++ ("[REDACTED]").data := by
  have hlen : (P ++ body).length = 40 := by
    simp [List.length_append, hP4, hb]
  cases hPB : (P ++ body : Str) with
  | nil =>
    rw [hPB] at hlen
    simp at hlen
  | cons c rest =>
    have htk : tokHereB P (c :: rest) = true := by
      rw [← hPB]
      have := @tokHereB_of_front P body [] hP4 hb hba
      simpa using this
    have hm : (tokRule P).matchLen none (c :: rest) = some 40 := by
      simp [tokRule, htk]
    have hlen2 : (c :: rest).length = 40 := by
      rw [← hPB]
      exact hlen
    rw [applyRule]
    rw [applyRuleGo]
    simp only [hm]
    rw [dif_pos ⟨by omega, by omega⟩]
    have hdrop : (c :: rest).drop 40 = [] := by
      apply List.drop_eq_nil_of_le
      omega
    rw [hdrop]
    simp [applyRuleGo, tokRule]

/-- ASCII case folding used for `key.toLowerCase()`. -/
def jsToLowerCh (c : Char) : Char :=
  if 65 ≤ c.toNat ∧ c.toNat ≤ 90 then Char.ofNat (c.toNat + 32) else c

def jsToLower (s : Str) : Str :=
  s.map jsToLowerCh

/-- Does `s` start with `needle`? -/
def hasPre : Str → Str → Bool
  | [], _ => true
  | _ :: _, [] => false
  | c :: cs, d :: ds => decide (c = d) && hasPre cs ds

/-- `String.prototype.includes`: does the string contain `needle`? -/
def strIncl (needle : Str) : Str → Bool
  | [] => hasPre needle []
  | c :: rest => hasPre needle (c :: rest) || strIncl needle rest

/-- `Logger.sensitiveFields`, in source order. -/
def sensitiveFields : List Str :=
  [("token").data, ("password").data, ("secret").data, ("apiKey").data,
   ("api_key").data, ("accessToken").data, ("access_token").data,
   ("refreshToken").data, ("refresh_token").data, ("privateKey").data,
   ("private_key").data, ("authorization").data]

/-- The denylist test of `sanitizeObject`:
`this.sensitiveFields.some(field => lowerKey.includes(field.toLowerCase()))`. -/
def isSensitiveKey (k : Str) : Bool :=
  sensitiveFields.any fun f => strIncl (jsToLower f) (jsToLower k)

def redactedStr : Str :=
  ("[REDACTED]").data

end Logger

mutual
/-- JavaScript values as passed to the logger: primitives, arrays and plain
objects (an object is a finite list of key/value entries). -/
inductive JVal : Type where
  | vnull
  | vundef
  | vbool (b : Bool)
  | vnum (n : Int)
  | vstr (s : Str)
  | varr (items : JArr)
  | vobj (fields : JObj)
inductive JArr : Type where
  | anil
  | acons (hd : JVal) (tl : JArr)
inductive JObj : Type where
  | onil
  | ocons (key : Str) (val : JVal) (tl : JObj)
end

namespace Logger

/-- `typeof value === 'object' && value !== null` (arrays included,
`null` excluded even though `typeof null` is `'object'`). -/
def isObjLike : JVal → Bool
  | .varr _ => true
  | .vobj _ => true
  | _ => false

mutual
/-- `Logger.sanitizeObject`: recursively walk arrays and objects, replacing
the value of every denylisted key by the literal `[REDACTED]` and leaving
`null`/`undefined`/primitives unchanged. -/
def sanitizeObject : JVal → JVal
  | .vnull => .vnull
  | .vundef => .vundef
  | .vbool b => .vbool b
  | .vnum n => .vnum n
  | .vstr s => .vstr s
  | .varr items => .varr (sanitizeArr items)
  | .vobj fields => .vobj (sanitizeFields fields)
def sanitizeArr : JArr → JArr
  | .anil => .anil
  | .acons v tl => .acons (sanitizeObject v) (sanitizeArr tl)
def sanitizeFields : JObj → JObj
  | .onil => .onil
  | .ocons k v tl =>
    if isSensitiveKey k then .ocons k (.vstr redactedStr) (sanitizeFields tl)
    else if isObjLike v then .ocons k (sanitizeObject v) (sanitizeFields tl)
    else .ocons k v (sanitizeFields tl)
end

/-- Membership of a value in an array spine. -/
def arrMem (v : JVal) : JArr → Prop
  | .anil => False
  | .acons hd tl => v = hd ∨ arrMem v tl

/-- Membership of a key/value entry in an object spine. -/
def fieldMem (k : Str) (v : JVal) : JObj → Prop
  | .onil => False
  | .ocons k2 v2 tl => (k = k2 ∧ v = v2) ∨ fieldMem k v tl

/-- `u` occurs somewhere inside `w` (reflexive, through arrays and object
values at any depth). -/
inductive SubVal : JVal → JVal → Prop where
  | refl (v : JVal) : SubVal v v
  | inArr {u w : JVal} {items : JArr} (hm : arrMem w items) (hs : SubVal u w) :
      SubVal u (.varr items)
  | inObj {u w : JVal} {fields : JObj} {k : Str} (hm : fieldMem k w fields)
      (hs : SubVal u w) : SubVal u (.vobj fields)

mutual
/-- Every object entry with a denylisted key, at any depth, carries the
literal `[REDACTED]` value. -/
def cleanVal : JVal → Bool
  | .varr items => cleanArr items
  | .vobj fields => cleanObj fields
  | _ => true
def cleanArr : JArr → Bool
  | .anil => true
  | .acons v tl => cleanVal v && cleanArr tl
def cleanObj : JObj → Bool
  | .onil => true
  | .ocons k v tl =>
    (if isSensitiveKey k then
      (match v with | .vstr s => decide (s = redactedStr) | _ => false)
     else cleanVal v) && cleanObj tl
end

mutual
/-- Sanitized values satisfy the redaction invariant. -/
theorem cleanVal_sanitize : ∀ v : JVal, cleanVal (sanitizeObject v) = true
  | .vnull => rfl
  | .vundef => rfl
  | .vbool b => rfl
  | .vnum n => rfl
  | .vstr s => rfl
  | .varr items => by
      simp only [sanitizeObject, cleanVal]
      exact cleanArr_sanitize items
  | .vobj fields => by
      simp only [sanitizeObject, cleanVal]
      exact cleanObj_sanitize fields
theorem cleanArr_sanitize : ∀ a : JArr, cleanArr (sanitizeArr a) = true
  | .anil => rfl
  | .acons v tl => by
      simp only [sanitizeArr, cleanArr, Bool.and_eq_true_iff]
      exact ⟨cleanVal_sanitize v, cleanArr_sanitize tl⟩
theorem cleanObj_sanitize : ∀ o : JObj, cleanObj (sanitizeFields o) = true
  | .onil => rfl
  | .ocons k v tl => by
      by_cases hk : isSensitiveKey k = true
      · simp [sanitizeFields, hk, cleanObj, cleanObj_sanitize tl]
      · by_cases ho : isObjLike v = true
        · simp [sanitizeFields, hk, ho, cleanObj, cleanVal_sanitize v,
            cleanObj_sanitize tl]
        · have hv : cleanVal v = true := by
            cases v <;> simp [cleanVal, isObjLike] at ho ⊢
          simp [sanitizeFields, hk, ho, cleanObj, hv, cleanObj_sanitize tl]
end

theorem cleanObj_field : ∀ (fs : JObj) {k : Str} {val : JVal},
    cleanObj fs = true → fieldMem k val fs → isSensitiveKey k = true →
    val = JVal.vstr redactedStr
  | .onil, k, val => by
    intro _ hm
    exact hm.elim
  | .ocons k2 v2 tl, k, val => by
    intro hcl hm hk
    simp only [cleanObj, Bool.and_eq_true_iff] at hcl
    rcases hm with ⟨hkk, hvv⟩ | hm2
    · subst hkk
      subst hvv
      rw [if_pos hk] at hcl
      have h1 := hcl.1
      cases val with
      | vstr s =>
        simp only [decide_eq_true_eq] at h1
        rw [h1]
      | vnull => exact absurd h1 (by simp)
      | vundef => exact absurd h1 (by simp)
      | vbool b => exact absurd h1 (by simp)
      | vnum n => exact absurd h1 (by simp)
      | varr a => exact absurd h1 (by simp)
      | vobj o => exact absurd h1 (by simp)
    · exact cleanObj_field tl hcl.2 hm2 hk

theorem cleanArr_mem : ∀ (a : JArr) {w : JVal},
    cleanArr a = true → arrMem w a → cleanVal w = true
  | .anil, w => by
    intro _ hm
    exact hm.elim
  | .acons v tl, w => by
    intro hcl hm
    simp only [cleanArr, Bool.and_eq_true_iff] at hcl
    rcases hm with h | h
    · rw [h]
      exact hcl.1
    · exact cleanArr_mem tl hcl.2 h

theorem cleanObj_mem : ∀ (fs : JObj) {k : Str} {w : JVal},
    cleanObj fs = true → fieldMem k w fs → cleanVal w = true
  | .onil, k, w => by
    intro _ hm
    exact hm.elim
  | .ocons k2 v2 tl, k, w => by
    intro hcl hm
    simp only [cleanObj, Bool.and_eq_true_iff] at hcl
    rcases hm with ⟨hkk, hvv⟩ | hm2
    · subst hvv
      by_cases hk : isSensitiveKey k2 = true
      · rw [if_pos hk] at hcl
        have h1 := hcl.1
        cases w <;> simp at h1 <;> simp [cleanVal]
      · rw [if_neg hk] at hcl
        exact hcl.1
    · exact cleanObj_mem tl hcl.2 hm2

theorem clean_spec : ∀ {u w : JVal}, SubVal u w → cleanVal w = true →
    ∀ {fs : JObj} {k : Str} {val : JVal}, u = JVal.vobj fs → fieldMem k val fs →
    isSensitiveKey k = true → val = JVal.vstr redactedStr := by
  intro u w hsub
  induction hsub with
  | refl =>
    intro hclean fs k val hu hmem hk
    subst hu
    simp only [cleanVal] at hclean
    exact cleanObj_field _ hclean hmem hk
  | inArr hm _ ih =>
    intro hclean fs k val hu hmem hk
    simp only [cleanVal] at hclean
    exact ih (cleanArr_mem _ hclean hm) hu hmem hk
  | inObj hm _ ih =>
    intro hclean fs k val hu hmem hk
    simp only [cleanVal] at hclean
    exact ih (cleanObj_mem _ hclean hm) hu hmem hk

theorem sanitizeObject_prim {v : JVal} (h : isObjLike v = false) :
    sanitizeObject v = v := by
  cases v <;> simp [isObjLike] at h ⊢ <;> rfl

theorem sanitizeFields_keep : ∀ (fs : JObj) {k : Str} {v : JVal},
    fieldMem k v fs → isSensitiveKey k = false →
    fieldMem k (sanitizeObject v) (sanitizeFields fs)
  | .onil, k, v => by
    intro hm
    exact hm.elim
  | .ocons k2 v2 tl, k, v => by
    intro hm hk
    rcases hm with ⟨hkk, hvv⟩ | hm2
    · subst hkk
      subst hvv
      rw [sanitizeFields, if_neg (by rw [hk]; simp)]
      by_cases ho : isObjLike v = true
      · rw [if_pos ho]
        exact Or.inl ⟨rfl, rfl⟩
      · rw [if_neg ho]
        rw [sanitizeObject_prim (by simpa using ho)]
        exact Or.inl ⟨rfl, rfl⟩
    · rw [sanitizeFields]
      by_cases hk2 : isSensitiveKey k2 = true
      · rw [if_pos hk2]
        exact Or.inr (sanitizeFields_keep tl hm2 hk)
      · rw [if_neg hk2]
        by_cases ho : isObjLike v2 = true
        · rw [if_pos ho]
          exact Or.inr (sanitizeFields_keep tl hm2 hk)
        · rw [if_neg ho]
          exact Or.inr (sanitizeFields_keep tl hm2 hk)

mutual
/-- `JSON.stringify` on an (already finite) value; quoting and indentation
are rendered in a plain single-line form, which the claims never inspect. -/
def jsonStringify : JVal → Str
  | .vnull => ("null").data
  | .vundef => ("undefined").data
  | .vbool b => if b then ("true").data else ("false").data
  | .vnum n => (toString n).data
  | .vstr s => Char.ofNat 34 :: s ++ [Char.ofNat 34]
  | .varr items => '[' :: jsonStringifyArr items ++ [']']
  | .vobj fields => Char.ofNat 123 :: jsonStringifyObj fields ++ [Char.ofNat 125]
def jsonStringifyArr : JArr → Str
  | .anil => []
  | .acons v .anil => jsonStringify v
  | .acons v tl => jsonStringify v ++ ',' :: jsonStringifyArr tl
def jsonStringifyObj : JObj → Str
  | .onil => []
  | .ocons k v .onil => Char.ofNat 34 :: k ++ Char.ofNat 34 :: ':' :: jsonStringify v
  | .ocons k v tl =>
    Char.ofNat 34 :: k ++ Char.ofNat 34 :: ':' :: jsonStringify v ++
      ',' :: jsonStringifyObj tl
end

/-- `LogLevel` enumeration (`DEBUG = 0 < INFO = 1 < WARN = 2 < ERROR = 3`). -/
inductive LogLevel : Type where
  | DEBUG
  | INFO
  | WARN
  | ERROR
deriving DecidableEq

def LogLevel.toNat : LogLevel → Nat
  | .DEBUG => 0
  | .INFO => 1
  | .WARN => 2
  | .ERROR => 3

/-- The reverse enum mapping `LogLevel[level]` used in the announcement. -/
def LogLevel.levelName : LogLevel → Str
  | .DEBUG => ("DEBUG").data
  | .INFO => ("INFO").data
  | .WARN => ("WARN").data
  | .ERROR => ("ERROR").data

/-- `this.logLevel <= level` comparisons on the numeric enum values. -/
def levelLE (a b : LogLevel) : Bool :=
  decide (a.toNat ≤ b.toNat)

/-- The logger's process-wide state: current minimum level and the lines
appended to the output channel so far. -/
structure LogState where
  logLevel : LogLevel
  lines : List Str

/-- `Logger.formatMessage`: `[timestamp] [LEVEL] <sanitized message>`, plus a
sanitized serialization of `data` on a following line when provided.  In this
tree model serialization is total, so the source's catch branch around
`JSON.stringify` is unreachable. -/
def formatMessage (ts level message : Str) (data : Option JVal) : Str :=
  let base := '[' :: ts ++ (']' :: ' ' :: '[' :: level ++ (']' :: ' ' :: sanitize message))
  match data with
  | none => base
  | some d => base ++ '\n' :: sanitize (jsonStringify (sanitizeObject d))

/-- `Logger.debug`. -/
def debugM (st : LogState) (ts msg : Str) (data : Option JVal) : LogState :=
  if levelLE st.logLevel .DEBUG then
    { st with lines := st.lines ++ [formatMessage ts (("DEBUG").data) msg data] }
  else st

/-- `Logger.info`. -/
def infoM (st : LogState) (ts msg : Str) (data : Option JVal) : LogState :=
  if levelLE st.logLevel .INFO then
    { st with lines := st.lines ++ [formatMessage ts (("INFO").data) msg data] }
  else st

/-- `Logger.warn`. -/
def warnM (st : LogState) (ts msg : Str) (data : Option JVal) : LogState :=
  if levelLE st.logLevel .WARN then
    { st with lines := st.lines ++ [formatMessage ts (("WARN").data) msg data] }
  else st

/-- An `error` argument of `Logger.error`: a structured `Error` (message and
stack) or an arbitrary value. -/
inductive JsError : Type where
  | jsErr (message : Str) (stack : Str)
  | jsVal (v : JVal)

/-- JavaScript truthiness of a value (`NaN` not modelled). -/
def jsTruthy : JVal → Bool
  | .vnull => false
  | .vundef => false
  | .vbool b => b
  | .vnum n => decide (n ≠ 0)
  | .vstr s => decide (s ≠ [])
  | .varr _ => true
  | .vobj _ => true

/-- The `errorDetails` string built by `Logger.error`. -/
def errorDetails : JsError → Str
  | .jsErr m stack =>
    ("\nError: ").data ++ m ++ ("\nStack: ").data ++ sanitize stack
  | .jsVal v =>
    if jsTruthy v then ("\nError: ").data ++ jsonStringify (sanitizeObject v) else []

/-- `Logger.error` on finite (acyclic) error values: always total. -/
def errorM (st : LogState) (ts msg : Str) (err : Option JsError) (data : Option JVal) :
    LogState :=
  if levelLE st.logLevel .ERROR then
    let details := match err with | none => [] | some e => errorDetails e
    { st with lines := st.lines ++ [formatMessage ts (("ERROR").data) (msg ++ details) data] }
  else st

/-- `Logger.setLogLevel`: store the new level, then announce it through
`this.info(...)` (which is itself subject to the level filter just set). -/
def setLogLevel (st : LogState) (level : LogLevel) (ts : Str) : LogState :=
  let st1 := { st with logLevel := level }
  infoM st1 ts ((("Log level set to ").data) ++ LogLevel.levelName level) none

/-- `Logger.getLogLevel`. -/
def getLogLevel (st : LogState) : LogLevel :=
  st.logLevel

end Logger

namespace Logger

/-- A node of a JavaScript object graph: primitive, array of references or
object of key/reference fields.  Unlike `JVal`, references may form cycles. -/
inductive HNode : Type where
  | hprim (v : JVal)
  | harr (elems : List Nat)
  | hobj (fields : List (Str × Nat))

/-- An object heap; a reference is an index into the node list. -/
abbrev Heap := List HNode

mutual
/-- `Logger.sanitizeObject` run on a heap value, with the available recursion
depth made explicit: `none` means the recursion did not complete within the
given depth (for a cyclic value, within any depth: a stack overflow). -/
def sanH : Nat → Heap → Nat → Option JVal
  | 0, _, _ => none
  | fuel+1, hp, r =>
    match hp.get? r with
    | none => some .vundef
    | some (.hprim v) => some v
    | some (.harr es) => (sanHElems fuel hp es).map JVal.varr
    | some (.hobj fs) => (sanHFields fuel hp fs).map JVal.vobj
def sanHElems : Nat → Heap → List Nat → Option JArr
  | 0, _, _ => none
  | _+1, _, [] => some .anil
  | fuel+1, hp, r :: rs =>
    match sanH fuel hp r, sanHElems fuel hp rs with
    | some v, some tl => some (.acons v tl)
    | _, _ => none
def sanHFields : Nat → Heap → List (Str × Nat) → Option JObj
  | 0, _, _ => none
  | _+1, _, [] => some .onil
  | fuel+1, hp, (k, r) :: rest =>
    if isSensitiveKey k then
      (sanHFields fuel hp rest).map (JObj.ocons k (.vstr redactedStr))
    else
      match hp.get? r with
      | some (.harr _) => (match sanH fuel hp r, sanHFields fuel hp rest with
          | some v, some tl => some (.ocons k v tl)
          | _, _ => none)
      | some (.hobj _) => (match sanH fuel hp r, sanHFields fuel hp rest with
          | some v, some tl => some (.ocons k v tl)
          | _, _ => none)
      | some (.hprim v) => (sanHFields fuel hp rest).map (JObj.ocons k v)
      | none => (sanHFields fuel hp rest).map (JObj.ocons k .vundef)
end

/-- `Logger.error(message, error)` where `error` is a truthy non-`Error`
object given as a heap reference: the source runs
`JSON.stringify(this.sanitizeObject(error))` with no surrounding try/catch,
so if the `sanitizeObject` recursion cannot complete (`none`), the call
raises instead of appending a record. -/
def errorOnHeap (st : LogState) (ts msg : Str) (hp : Heap) (r : Nat) (fuel : Nat) :
    Option LogState :=
  if levelLE st.logLevel .ERROR then
    match sanH fuel hp r with
    | none => none
    | some v =>
      some { st with lines := st.lines ++
        [formatMessage ts (("ERROR").data)
          (msg ++ ("\nError: ").data ++ jsonStringify v) none] }
  else some st

/-- The self-referential object `e = {}; e.self = e`. -/
def cyclicHeap : Heap :=
  [HNode.hobj [(("self").data, 0)]]

theorem sanH_cyclic_none : ∀ fuel, sanH fuel cyclicHeap 0 = none ∧
    sanHFields fuel cyclicHeap [(("self").data, 0)] = none := by
  intro fuel
  induction fuel with
  | zero => exact ⟨rfl, rfl⟩
  | succ f ih =>
    constructor
    · rw [sanH]
      have hget : cyclicHeap.get? 0 = some (HNode.hobj [(("self").data, 0)]) := rfl
      rw [hget]
      simp [ih.2]
    · rw [sanHFields]
      rw [if_neg (by decide)]
      have hget : cyclicHeap.get? 0 = some (HNode.hobj [(("self").data, 0)]) := rfl
      rw [hget]
      simp [ih.1]

end Logger

namespace ErrorHandler

/-- `ErrorSeverity` (`info`/`warning`/`error`). -/
inductive ErrorSeverity : Type where
  | info
  | warning
  | error
deriving DecidableEq

/-- `ErrorContext`: optional operation name, component name and metadata. -/
structure ErrorContext where
  operation : Option Str
  component : Option Str
  metadata : Option JVal

def netMsg : Str :=
  ("Network error: Unable to connect to GitHub. Please check your internet connection.").data

def authFailedMsg : Str :=
  ("Authentication failed. Please sign in to GitHub again.").data

def accessDeniedMsg : Str :=
  ("Access denied. You may not have permission for this operation.").data

def notFoundMsg : Str :=
  ("Resource not found. The requested item may have been deleted or moved.").data

def rateLimitMsg : Str :=
  ("GitHub API rate limit exceeded. Please try again later.").data

def unexpectedMsg : Str :=
  ("An unexpected error occurred. Please check the logs for more details.").data

/-- `ErrorHandler.getUserMessage`: first-match-wins substring classification. -/
def getUserMessage : Logger.JsError → Str
  | .jsErr m _ =>
    if Logger.strIncl (("ENOTFOUND").data) m then netMsg
    else if Logger.strIncl (("401").data) m || Logger.strIncl (("Unauthorized").data) m then
      authFailedMsg
    else if Logger.strIncl (("403").data) m || Logger.strIncl (("Forbidden").data) m then
      accessDeniedMsg
    else if Logger.strIncl (("404").data) m || Logger.strIncl (("Not Found").data) m then
      notFoundMsg
    else if Logger.strIncl (("rate limit").data) m then rateLimitMsg
    else m
  | .jsVal (.vstr s) => s
  | .jsVal _ => unexpectedMsg

/-- JavaScript `x || 'default'` on an optional string (an empty string is
falsy and also falls back). -/
def orDefault (o : Option Str) (d : Str) : Str :=
  match o with
  | some s => if s = [] then d else s
  | none => d

/-- Host interactions performed by `ErrorHandler.handle`, in order. -/
inductive HostEv : Type where
  | logCall (message : Str)
  | promptAttempt (sev : ErrorSeverity) (message : Str) (actions : List Str)
  | showLogs

structure HandleOut where
  logState : Logger.LogState
  trace : List HostEv
  outcome : Except Unit Unit

/-- `ErrorHandler.handle(error, context?, severity)`: classify, log via
`Logger.error`, then await a severity-selected prompt with the actions
`Show Logs` / `Dismiss`; `promptResp` is the host's response to that prompt
(`.error` = the prompt call itself rejects).  There is no try/catch in the
source, so a prompt rejection propagates out of `handle`. -/
def handle (lst : Logger.LogState) (ts : Str) (err : Logger.JsError)
    (ctx : Option ErrorContext) (sev : ErrorSeverity)
    (promptResp : Except Unit (Option Str)) : HandleOut :=
  let userMessage := getUserMessage err
  let operation := orDefault (ctx.bind ErrorContext.operation) (("Unknown operation").data)
  let component := orDefault (ctx.bind ErrorContext.component) (("Unknown component").data)
  let logMsg := ("Error in ").data ++ component ++ (" during ").data ++ operation
  let lst2 := Logger.errorM lst ts logMsg (some err) (ctx.bind ErrorContext.metadata)
  let actions := [("Show Logs").data, ("Dismiss").data]
  let baseTrace := [HostEv.logCall logMsg, HostEv.promptAttempt sev userMessage actions]
  match promptResp with
  | .error _ => ⟨lst2, baseTrace, .error ()⟩
  | .ok sel =>
    if sel = some (("Show Logs").data) then ⟨lst2, baseTrace ++ [HostEv.showLogs], .ok ()⟩
    else ⟨lst2, baseTrace, .ok ()⟩

end ErrorHandler

namespace WorkspaceTrustManager

/-- User response to the trust modal; `dismissed` stands for closing the
dialog without choosing (the selection comes back `undefined`). -/
inductive TrustChoice : Type where
  | trustWorkspace
  | learnMore
  | cancel
  | dismissed
deriving DecidableEq

/-- Observable outcome of one `ensureTrustedWorkspace()` call: the returned
boolean plus how many modals were shown, how many external URIs were opened,
how many times the trust-management command was invoked, and how many times
the host trust flag was read. -/
structure TrustOutcome where
  result : Bool
  modals : Nat
  uriOpens : Nat
  trustCmds : Nat
  flagReads : Nat
deriving DecidableEq

/-- `WorkspaceTrustManager.ensureTrustedWorkspace`, with the host's behaviour
given as oracles: `flags` is the sequence of values the trust flag reads
return (`false` when exhausted), `choices` the sequence of modal responses
(dismissal when exhausted).  `Learn More` opens the external documentation
and re-invokes the whole flow, which re-reads the trust flag. -/
def ensureTrustedWorkspace (flags : List Bool) (choices : List TrustChoice) :
    TrustOutcome :=
  if flags.headD false then ⟨true, 0, 0, 0, 1⟩
  else
    match choices with
    | [] => ⟨false, 1, 0, 0, 1⟩
    | c :: rest =>
      match c with
      | .cancel => ⟨false, 1, 0, 0, 1⟩
      | .dismissed => ⟨false, 1, 0, 0, 1⟩
      | .trustWorkspace => ⟨true, 1, 0, 1, 1⟩
      | .learnMore =>
        let o := ensureTrustedWorkspace flags.tail rest
        ⟨o.result, o.modals + 1, o.uriOpens + 1, o.trustCmds, o.flagReads + 1⟩

end WorkspaceTrustManager

namespace GitHubAuthManager

structure Account where
  id : Str
  label : Str

/-- `vscode.AuthenticationSession`. -/
structure AuthenticationSession where
  id : Str
  accessToken : Str
  account : Account
  scopes : List Str

/-- The Octokit client handle, keeping the bearer credential it was built
from (`new Octokit({ auth: token })`). -/
structure Octokit where
  auth : Str

def GITHUB_SCOPES : List Str :=
  [("repo").data, ("read:org").data]

/-- The options object of a `vscode.authentication.getSession` call. -/
structure GetSessionOpts where
  createIfNone : Bool
  silent : Option Bool
deriving DecidableEq

/-- One provider lookup issued by the manager. -/
structure SessionRequest where
  providerId : Str
  scopes : List Str
  opts : GetSessionOpts
deriving DecidableEq

/-- The manager's two mutable fields. -/
structure AuthState where
  currentSession : Option AuthenticationSession
  octokit : Option Octokit

def initState : AuthState :=
  ⟨none, none⟩

/-- The provider's answer to one `getSession` call: rejection, no session,
or a session. -/
abbrev ProviderResp := Except Unit (Option AuthenticationSession)

def silentRequest : SessionRequest :=
  ⟨("github").data, GITHUB_SCOPES, ⟨false, some true⟩⟩

def interactiveRequest : SessionRequest :=
  ⟨("github").data, GITHUB_SCOPES, ⟨true, none⟩⟩

def refreshRequest : SessionRequest :=
  ⟨("github").data, GITHUB_SCOPES, ⟨false, none⟩⟩

/-- `refreshSession()`: non-interactive lookup; on a session, replace both
fields; on absence or error, clear both. -/
def refreshSessionM (st : AuthState) (resp : ProviderResp) :
    AuthState × List SessionRequest :=
  match resp with
  | .error _ => (⟨none, none⟩, [refreshRequest])
  | .ok none => (⟨none, none⟩, [refreshRequest])
  | .ok (some s) => (⟨some s, some ⟨s.accessToken⟩⟩, [refreshRequest])

/-- `authenticate()`: interactive lookup (`createIfNone: true`); a session
replaces both fields and yields true; no session leaves the fields as they
were and yields false; an error clears both fields and yields false. -/
def authenticateM (st : AuthState) (resp : ProviderResp) :
    AuthState × Bool × List SessionRequest :=
  match resp with
  | .error _ => (⟨none, none⟩, false, [interactiveRequest])
  | .ok none => (st, false, [interactiveRequest])
  | .ok (some s) => (⟨some s, some ⟨s.accessToken⟩⟩, true, [interactiveRequest])

/-- `isAuthenticated()`: silent non-interactive lookup; adopts the returned
session only when none is cached; an error is logged and swallowed. -/
def isAuthenticatedM (st : AuthState) (resp : ProviderResp) :
    AuthState × Bool × List SessionRequest :=
  match resp with
  | .error _ => (st, false, [silentRequest])
  | .ok none => (st, false, [silentRequest])
  | .ok (some s) =>
    (if st.currentSession.isNone then ⟨some s, some ⟨s.accessToken⟩⟩ else st,
     true, [silentRequest])

/-- `ensureAuthenticated()`: silent check first, then the interactive flow
only when the check failed. -/
def ensureAuthenticatedM (st : AuthState) (resp1 resp2 : ProviderResp) :
    AuthState × Bool × List SessionRequest :=
  let r1 := isAuthenticatedM st resp1
  if r1.2.1 then (r1.1, true, r1.2.2)
  else
    let r2 := authenticateM r1.1 resp2
    (r2.1, r2.2.1, r1.2.2 ++ r2.2.2)

/-- `getOctokit()`: pure read of the client field. -/
def getOctokit (st : AuthState) : Option Octokit :=
  st.octokit

/-- `getUsername()`: the cached session's account label, if any. -/
def getUsername (st : AuthState) : Option Str :=
  st.currentSession.map (fun s => s.account.label)

/-- `logout()`: a no-op returning true when no session is held; otherwise
clear both fields first, then show the confirmation notice — `showResp` is
that call's outcome, and its rejection is caught and turned into false. -/
def logoutM (st : AuthState) (showResp : Except Unit Unit) : AuthState × Bool :=
  match st.currentSession with
  | none => (st, true)
  | some _ =>
    let st2 : AuthState := ⟨none, none⟩
    match showResp with
    | .ok _ => (st2, true)
    | .error _ => (st2, false)

/-- One public operation on the singleton, with the host responses it will
consume. -/
inductive AuthOp : Type where
  | authenticate (resp : ProviderResp)
  | refreshSession (resp : ProviderResp)
  | isAuthenticated (resp : ProviderResp)
  | ensureAuthenticated (resp1 resp2 : ProviderResp)
  | logout (showResp : Except Unit Unit)
  | getOctokit
  | getUsername

def applyOp (st : AuthState) : AuthOp → AuthState
  | .authenticate resp => (authenticateM st resp).1
  | .refreshSession resp => (refreshSessionM st resp).1
  | .isAuthenticated resp => (isAuthenticatedM st resp).1
  | .ensureAuthenticated r1 r2 => (ensureAuthenticatedM st r1 r2).1
  | .logout r => (logoutM st r).1
  | .getOctokit => st
  | .getUsername => st

/-- Run a call sequence from the initial (unauthenticated) state. -/
def runOps (ops : List AuthOp) : AuthState :=
  ops.foldl applyOp initState

/-- The Session/Client coupling: both fields present or both absent. -/
def sessionClientCoupled (st : AuthState) : Prop :=
  st.octokit.isSome = st.currentSession.isSome

theorem coupled_applyOp {st : AuthState} (h : sessionClientCoupled st) (op : AuthOp) :
    sessionClientCoupled (applyOp st op) := by
  cases op with
  | authenticate resp =>
    rcases resp with e | o
    · simp [applyOp, authenticateM, sessionClientCoupled]
    · rcases o with _ | s
      · simpa [applyOp, authenticateM] using h
      · simp [applyOp, authenticateM, sessionClientCoupled]
  | refreshSession resp =>
    rcases resp with e | o
    · simp [applyOp, refreshSessionM, sessionClientCoupled]
    · rcases o with _ | s
      · simp [applyOp, refreshSessionM, sessionClientCoupled]
      · simp [applyOp, refreshSessionM, sessionClientCoupled]
  | isAuthenticated resp =>
    rcases resp with e | o
    · simpa [applyOp, isAuthenticatedM] using h
    · rcases o with _ | s
      · simpa [applyOp, isAuthenticatedM] using h
      · by_cases hc : st.currentSession.isNone
        · simp [applyOp, isAuthenticatedM, hc, sessionClientCoupled]
        · simpa [applyOp, isAuthenticatedM, hc] using h
  | ensureAuthenticated r1 r2 =>
    rcases r1 with e | o
    · rcases r2 with e2 | o2
      · simp [applyOp, ensureAuthenticatedM, isAuthenticatedM, authenticateM,
          sessionClientCoupled]
      · rcases o2 with _ | s2
        · simpa [applyOp, ensureAuthenticatedM, isAuthenticatedM, authenticateM] using h
        · simp [applyOp, ensureAuthenticatedM, isAuthenticatedM, authenticateM,
            sessionClientCoupled]
    · rcases o with _ | s
      · rcases r2 with e2 | o2
        · simp [applyOp, ensureAuthenticatedM, isAuthenticatedM, authenticateM,
            sessionClientCoupled]
        · rcases o2 with _ | s2
          · simpa [applyOp, ensureAuthenticatedM, isAuthenticatedM, authenticateM] using h
          · simp [applyOp, ensureAuthenticatedM, isAuthenticatedM, authenticateM,
              sessionClientCoupled]
      · by_cases hc : st.currentSession.isNone
        · simp [applyOp, ensureAuthenticatedM, isAuthenticatedM, hc, sessionClientCoupled]
        · simpa [applyOp, ensureAuthenticatedM, isAuthenticatedM, hc] using h
  | logout r =>
    rcases hs : st.currentSession with _ | s
    · have : applyOp st (.logout r) = st := by
        simp [applyOp, logoutM, hs]
      rw [this]
      exact h
    · rcases r with e | u
      · simp [applyOp, logoutM, hs, sessionClientCoupled]
      · simp [applyOp, logoutM, hs, sessionClientCoupled]
  | getOctokit => exact h
  | getUsername => exact h

theorem coupled_foldl : ∀ (ops : List AuthOp) (st : AuthState),
    sessionClientCoupled st → sessionClientCoupled (ops.foldl applyOp st) := by
  intro ops
  induction ops with
  | nil => intro st h; exact h
  | cons op rest ih =>
    intro st h
    exact ih (applyOp st op) (coupled_applyOp h op)

theorem coupled_runOps (ops : List AuthOp) : sessionClientCoupled (runOps ops) :=
  coupled_foldl ops initState rfl

end GitHubAuthManager

section Claims

/-- A sample timestamp used by concrete instantiations. -/
def sampleTs : Str :=
  ("2026-01-01T00:00:00.000Z").data

/-- A sample logger state. -/
def sampleLogState : Logger.LogState :=
  ⟨Logger.LogLevel.INFO, []⟩

/-- A sample provider session. -/
def sampleSession : GitHubAuthManager.AuthenticationSession :=
  ⟨("sess-1").data, ("tok-1").data, ⟨("u-1").data, ("alice").data⟩,
   GitHubAuthManager.GITHUB_SCOPES⟩

/-- A sample authenticated manager state. -/
def sampleAuthed : GitHubAuthManager.AuthState :=
  ⟨some sampleSession, some ⟨sampleSession.accessToken⟩⟩

/-- C1: after any sequence of public operations on the Auth Session Manager
(starting from the initial unauthenticated state, with arbitrary host
responses), `getOctokit()` returns a defined value exactly when
`getUsername()` would: the Session and the Octokit client are always both
present or both absent. -/
theorem claim_c1 (ops : List GitHubAuthManager.AuthOp) :
    (GitHubAuthManager.getOctokit (GitHubAuthManager.runOps ops)).isSome =
    (GitHubAuthManager.getUsername (GitHubAuthManager.runOps ops)).isSome := by
  have h := GitHubAuthManager.coupled_runOps ops
  rw [GitHubAuthManager.sessionClientCoupled] at h
  have h2 : (Option.map (fun s => s.account.label)
      (GitHubAuthManager.runOps ops).currentSession).isSome =
      (GitHubAuthManager.runOps ops).currentSession.isSome := by
    cases (GitHubAuthManager.runOps ops).currentSession <;> rfl
  simp only [GitHubAuthManager.getOctokit, GitHubAuthManager.getUsername]
  rw [h2]
  exact h

/-- C2 counterexample: `ErrorHandler.handle` has no try/catch around the
notification prompt, so when the prompt call itself rejects, `handle`'s
promise rejects — at a concrete error, context and severity the outcome is
an exception, contradicting "never raises". -/
theorem claim_c2_counterexample :
    (ErrorHandler.handle sampleLogState sampleTs
      (Logger.JsError.jsErr (("boom").data) []) none
      ErrorHandler.ErrorSeverity.error (Except.error ())).outcome =
      Except.error () := rfl

/-- The log message `handle` sends to `Logger.error`. -/
def ErrorHandler.logMessageFor (ctx : Option ErrorHandler.ErrorContext) : Str :=
  ("Error in ").data ++
    ErrorHandler.orDefault (ctx.bind ErrorHandler.ErrorContext.component)
      (("Unknown component").data) ++
  (" during ").data ++
    ErrorHandler.orDefault (ctx.bind ErrorHandler.ErrorContext.operation)
      (("Unknown operation").data)

/-- C2 amended: `handle` logs the error record (via `Logger.error`) and only
then attempts the prompt, for every input; it resolves without raising
whenever the prompt call resolves, but a rejection of the prompt call itself
propagates (so "never raises" holds only for resolving prompts). -/
theorem claim_c2_amended (lst : Logger.LogState) (ts : Str) (err : Logger.JsError)
    (ctx : Option ErrorHandler.ErrorContext) (sev : ErrorHandler.ErrorSeverity)
    (resp : Except Unit (Option Str)) :
    ((ErrorHandler.handle lst ts err ctx sev resp).logState =
      Logger.errorM lst ts (ErrorHandler.logMessageFor ctx) (some err)
        (ctx.bind ErrorHandler.ErrorContext.metadata)) ∧
    ((ErrorHandler.handle lst ts err ctx sev resp).trace.take 2 =
      [ErrorHandler.HostEv.logCall (ErrorHandler.logMessageFor ctx),
       ErrorHandler.HostEv.promptAttempt sev (ErrorHandler.getUserMessage err)
         [("Show Logs").data, ("Dismiss").data]]) ∧
    (∀ sel, resp = Except.ok sel →
      (ErrorHandler.handle lst ts err ctx sev resp).outcome = Except.ok ()) := by
  rcases resp with e | sel
  · refine ⟨rfl, rfl, ?_⟩
    intro sel hsel
    cases hsel
  · constructor
    · by_cases hs : sel = some (("Show Logs").data) <;>
        simp [ErrorHandler.handle, ErrorHandler.logMessageFor, hs]
    · constructor
      · by_cases hs : sel = some (("Show Logs").data) <;>
          simp [ErrorHandler.handle, ErrorHandler.logMessageFor, hs]
      · intro sel2 hsel
        by_cases hs : sel = some (("Show Logs").data) <;>
          simp [ErrorHandler.handle, hs]

theorem claim_c2_amended_witness :
    (ErrorHandler.handle sampleLogState sampleTs
      (Logger.JsError.jsVal JVal.vnull) none
      ErrorHandler.ErrorSeverity.warning (Except.ok none)).outcome =
      Except.ok () :=
  (claim_c2_amended sampleLogState sampleTs (Logger.JsError.jsVal JVal.vnull) none
    ErrorHandler.ErrorSeverity.warning (Except.ok none)).2.2 none rfl

/-- C3: for every input string containing a well-formed provider token (one
of the four prefixes `ghp_`/`gho_`/`ghs_`/`ghr_` followed by a 36-character
alphanumeric body), the sanitizer output contains no occurrence of that
token substring; and the token rule replaces a token by the prefix followed
by `[REDACTED]`. -/
theorem claim_c3 (P body s : Str)
    (hP : P = ("ghp_").data ∨ P = ("gho_").data ∨ P = ("ghs_").data ∨
      P = ("ghr_").data)
    (hlen : body.length = 36) (halnum : body.all Logger.isAlnumCh = true)
    (hin : Logger.containsSub s (P ++ body)) :
    ¬ Logger.containsSub (Logger.sanitize s) (P ++ body) ∧
    Logger.applyRule (Logger.tokRule P) (P ++ body) = P ++ ("[REDACTED]").data := by
  constructor
  · intro hc
    exact Logger.sanitize_noTok P hP s (Logger.hasTok_of_containsSub hlen halnum hc)
  · refine Logger.applyRule_tok_self ?_ hlen halnum
    rcases hP with h | h | h | h <;> subst h <;> rfl

theorem claim_c3_witness :
    (List.replicate 36 'a').length = 36 ∧
    (¬ Logger.containsSub
        (Logger.sanitize ((("ghp_").data) ++ List.replicate 36 'a'))
        ((("ghp_").data) ++ List.replicate 36 'a') ∧
      Logger.applyRule (Logger.tokRule (("ghp_").data))
        ((("ghp_").data) ++ List.replicate 36 'a') =
        (("ghp_").data) ++ ("[REDACTED]").data) :=
  ⟨by decide,
   claim_c3 (("ghp_").data) (List.replicate 36 'a')
     ((("ghp_").data) ++ List.replicate 36 'a') (Or.inl rfl) (by decide) (by decide)
     ⟨[], [], by simp⟩⟩

/-- C4: in the sanitized payload every object entry whose key is denylisted
carries exactly the literal `[REDACTED]`, at any nesting depth (part 1);
`null`/`undefined`/primitives pass through unchanged (part 2); entries with
non-denylisted keys keep their values, with recursion into nested
objects/arrays (part 3). -/
theorem claim_c4 :
    (∀ (v u : JVal) (fs : JObj) (k : Str) (val : JVal),
      Logger.SubVal u (Logger.sanitizeObject v) → u = JVal.vobj fs →
      Logger.fieldMem k val fs → Logger.isSensitiveKey k = true →
      val = JVal.vstr Logger.redactedStr) ∧
    (∀ v : JVal, Logger.isObjLike v = false → Logger.sanitizeObject v = v) ∧
    (∀ (fs : JObj) (k : Str) (v : JVal), Logger.fieldMem k v fs →
      Logger.isSensitiveKey k = false →
      Logger.fieldMem k (Logger.sanitizeObject v) (Logger.sanitizeFields fs)) :=
  ⟨fun v _ _ _ _ hs hu hm hk =>
      Logger.clean_spec hs (Logger.cleanVal_sanitize v) hu hm hk,
   fun _ h => Logger.sanitizeObject_prim h,
   fun fs _ _ hm hk => Logger.sanitizeFields_keep fs hm hk⟩

/-- A sample payload with a denylisted key. -/
def samplePayload : JVal :=
  JVal.vobj (JObj.ocons (("token").data) (JVal.vstr (("hunter2").data)) JObj.onil)

theorem claim_c4_witness :
    Logger.isSensitiveKey (("token").data) = true ∧
    JVal.vstr Logger.redactedStr = JVal.vstr Logger.redactedStr :=
  ⟨by decide,
   claim_c4.1 samplePayload (Logger.sanitizeObject samplePayload)
     (JObj.ocons (("token").data) (JVal.vstr Logger.redactedStr) JObj.onil)
     (("token").data) (JVal.vstr Logger.redactedStr)
     (Logger.SubVal.refl _) rfl (Or.inl ⟨rfl, rfl⟩) (by decide)⟩

/-- C5: the claim (Logger.error never raises, including on cyclic error
values) is the documented intent, but the code violates it: for the
self-referential object `e = {self: e}`, the unguarded
`JSON.stringify(this.sanitizeObject(error))` path cannot complete within any
recursion depth — `sanitizeObject` recurses forever, so `error()` raises
instead of appending a record. -/
theorem claim_c5 (fuel : Nat) :
    Logger.errorOnHeap sampleLogState sampleTs (("An error occurred").data)
      Logger.cyclicHeap 0 fuel = none := by
  rw [Logger.errorOnHeap]
  rw [(Logger.sanH_cyclic_none fuel).1]
  rfl

/-- C6 counterexample: `setLogLevel(ERROR)` stores the level before the
announcement, so the announcing `info(...)` call is filtered out by the
level just set and no line is appended — the claim demands exactly one
announcement line after every `setLogLevel` call. -/
theorem claim_c6_counterexample :
    (Logger.setLogLevel ⟨Logger.LogLevel.INFO, []⟩ Logger.LogLevel.ERROR
      sampleTs).lines = [] := rfl

/-- C6 amended: `setLogLevel(L)` always sets the process-wide level to `L`;
it appends exactly one announcement line when the new level is `DEBUG` or
`INFO` (i.e. when `L ≤ INFO`), and none when the new level is `WARN` or
`ERROR`, because the announcement is itself filtered by the new level. -/
theorem claim_c6_amended (st : Logger.LogState) (level : Logger.LogLevel) (ts : Str) :
    (Logger.setLogLevel st level ts).logLevel = level ∧
    (Logger.setLogLevel st level ts).lines.length =
      (if Logger.levelLE level Logger.LogLevel.INFO then st.lines.length + 1
       else st.lines.length) := by
  cases level <;>
    simp [Logger.setLogLevel, Logger.infoM, Logger.levelLE, Logger.LogLevel.toNat]

/-- C7: after `logout()` completes the Session and the Client are both
absent; it returns true when no Session was held (idempotent no-op) and when
the confirmation notice displays successfully, and false when showing the
notice raises — in that case the in-memory state has nevertheless already
been cleared.  The hypothesis is the Session/Client coupling, which holds in
every reachable state. -/
theorem claim_c7 (st : GitHubAuthManager.AuthState) (showResp : Except Unit Unit)
    (hcoupled : st.currentSession = none → st.octokit = none) :
    ((GitHubAuthManager.logoutM st showResp).1.currentSession = none ∧
      (GitHubAuthManager.logoutM st showResp).1.octokit = none) ∧
    (st.currentSession = none → (GitHubAuthManager.logoutM st showResp).2 = true) ∧
    (st.currentSession ≠ none → showResp = Except.ok () →
      (GitHubAuthManager.logoutM st showResp).2 = true) ∧
    (st.currentSession ≠ none → showResp = Except.error () →
      (GitHubAuthManager.logoutM st showResp).2 = false) := by
  rcases hs : st.currentSession with _ | s
  · refine ⟨⟨?_, ?_⟩, ?_, ?_, ?_⟩ <;>
      simp [GitHubAuthManager.logoutM, hs, hcoupled hs]
  · rcases showResp with e | u
    · refine ⟨⟨?_, ?_⟩, ?_, ?_, ?_⟩ <;> simp [GitHubAuthManager.logoutM, hs]
    · refine ⟨⟨?_, ?_⟩, ?_, ?_, ?_⟩ <;> simp [GitHubAuthManager.logoutM, hs]

theorem claim_c7_witness :
    ((GitHubAuthManager.logoutM sampleAuthed (Except.error ())).1.currentSession =
        none ∧
      (GitHubAuthManager.logoutM sampleAuthed (Except.error ())).1.octokit = none) ∧
    (GitHubAuthManager.logoutM sampleAuthed (Except.error ())).2 = false :=
  have h := claim_c7 sampleAuthed (Except.error ())
    (fun hn => Option.noConfusion hn)
  ⟨h.1, h.2.2.2 (fun hn => Option.noConfusion hn) rfl⟩

/-- C8: `ensureTrustedWorkspace()` (1) resolves true with no modal when the
trust flag is already set; (2) resolves false after exactly one modal on
"Cancel" or dismissal; (3) resolves false after exactly two modals and
exactly one external-URI open on "Learn More" then "Cancel" (the flag still
untrusted at the re-check); (4) on "Trust Workspace" invokes the
trust-management command exactly once and resolves true without re-reading
the trust flag (only the single initial flag read happens). -/
theorem claim_c8 :
    (∀ (fr : List Bool) (choices : List WorkspaceTrustManager.TrustChoice),
      WorkspaceTrustManager.ensureTrustedWorkspace (true :: fr) choices =
        ⟨true, 0, 0, 0, 1⟩) ∧
    (∀ (fr : List Bool) (rest : List WorkspaceTrustManager.TrustChoice),
      WorkspaceTrustManager.ensureTrustedWorkspace (false :: fr)
          (WorkspaceTrustManager.TrustChoice.cancel :: rest) =
        ⟨false, 1, 0, 0, 1⟩ ∧
      WorkspaceTrustManager.ensureTrustedWorkspace (false :: fr)
          (WorkspaceTrustManager.TrustChoice.dismissed :: rest) =
        ⟨false, 1, 0, 0, 1⟩) ∧
    (∀ (fr : List Bool) (rest : List WorkspaceTrustManager.TrustChoice),
      WorkspaceTrustManager.ensureTrustedWorkspace (false :: false :: fr)
          (WorkspaceTrustManager.TrustChoice.learnMore ::
            WorkspaceTrustManager.TrustChoice.cancel :: rest) =
        ⟨false, 2, 1, 0, 2⟩) ∧
    (∀ (fr : List Bool) (rest : List WorkspaceTrustManager.TrustChoice),
      WorkspaceTrustManager.ensureTrustedWorkspace (false :: fr)
          (WorkspaceTrustManager.TrustChoice.trustWorkspace :: rest) =
        ⟨true, 1, 0, 1, 1⟩) := by
  refine ⟨?_, ?_, ?_, ?_⟩
  · intro fr choices
    simp [WorkspaceTrustManager.ensureTrustedWorkspace.eq_def]
  · intro fr rest
    constructor <;> simp [WorkspaceTrustManager.ensureTrustedWorkspace.eq_def]
  · intro fr rest
    simp [WorkspaceTrustManager.ensureTrustedWorkspace.eq_def]
  · intro fr rest
    simp [WorkspaceTrustManager.ensureTrustedWorkspace.eq_def]

/-- C9: `isAuthenticated()` never triggers the interactive session-creation
path: for every state and every provider response (including rejection) it
issues exactly one lookup, with `createIfNone: false` and `silent: true`. -/
theorem claim_c9 (st : GitHubAuthManager.AuthState)
    (resp : GitHubAuthManager.ProviderResp) :
    (GitHubAuthManager.isAuthenticatedM st resp).2.2 =
      [GitHubAuthManager.silentRequest] ∧
    ((GitHubAuthManager.isAuthenticatedM st resp).2.2).all
      (fun rq => !rq.opts.createIfNone && rq.opts.silent == some true) = true := by
  rcases resp with e | o
  · exact ⟨rfl, rfl⟩
  · rcases o with _ | s
    · exact ⟨rfl, rfl⟩
    · exact ⟨rfl, rfl⟩

/-- C10: `isAuthenticated()` mutates the held Session/Client only in the
adoption case (a session returned while none is cached); on a provider
error, on an empty lookup, and on a session returned while one is already
cached, both fields are left exactly as they were. -/
theorem claim_c10 (st : GitHubAuthManager.AuthState)
    (resp : GitHubAuthManager.ProviderResp) :
    (resp = Except.error () → (GitHubAuthManager.isAuthenticatedM st resp).1 = st) ∧
    (resp = Except.ok none → (GitHubAuthManager.isAuthenticatedM st resp).1 = st) ∧
    (∀ s, resp = Except.ok (some s) → st.currentSession ≠ none →
      (GitHubAuthManager.isAuthenticatedM st resp).1 = st) ∧
    (∀ s, resp = Except.ok (some s) → st.currentSession = none →
      (GitHubAuthManager.isAuthenticatedM st resp).1 =
        ⟨some s, some ⟨s.accessToken⟩⟩) := by
  refine ⟨?_, ?_, ?_, ?_⟩
  · rintro rfl
    rfl
  · rintro rfl
    rfl
  · rintro s rfl hne
    simp [GitHubAuthManager.isAuthenticatedM, Option.isNone_iff_eq_none, hne]
  · rintro s rfl hnone
    simp [GitHubAuthManager.isAuthenticatedM, hnone]

theorem claim_c10_witness :
    (GitHubAuthManager.isAuthenticatedM sampleAuthed (Except.error ())).1 =
      sampleAuthed ∧
    (GitHubAuthManager.isAuthenticatedM sampleAuthed
        (Except.ok (some sampleSession))).1 = sampleAuthed ∧
    (GitHubAuthManager.isAuthenticatedM GitHubAuthManager.initState
        (Except.ok (some sampleSession))).1 =
      ⟨some sampleSession, some ⟨sampleSession.accessToken⟩⟩ :=
  ⟨(claim_c10 sampleAuthed (Except.error ())).1 rfl,
   (claim_c10 sampleAuthed (Except.ok (some sampleSession))).2.2.1 sampleSession rfl
     (fun h => Option.noConfusion h),
   (claim_c10 GitHubAuthManager.initState
     (Except.ok (some sampleSession))).2.2.2 sampleSession rfl rfl⟩

end Claims
